import Mathlib

/-!
# Verification of the Pipe-Mode streaming examples repository

Shallow embedding of the two notebooks of this repository and of the
Streaming Channel Reader their spec describes:

* `advanced_functionality/unity_ml_agents/unity_mlagents_learn.ipynb` —
  the metric-plotting cell (try/except around `TrainingJobAnalytics`).
* `sagemaker-python-sdk/tensorflow_script_mode_pipe_mode/
  tensorflow_script_mode_pipe_mode.ipynb` — the embedded `pipemode.py`
  training script (`_input_fn`, `_parse_args`, the `__main__` export guard).

The pipe reader itself (`PipeModeDataset`) lives in an external package and
is not under `src/`; its behaviour is modelled from the spec
(sections 3, 4.1, 7, 8 of `spec.md`): length-prefixed framing with a 4-byte
little-endian length header, incremental buffer assembly over arbitrary
`read()` chunking, a sane maximum record size, corruption failures, and
repeat/batch stages.

Bytes are modelled as `Nat` (a well-formed stream has entries `< 256`);
fallible operations return `Except`.
-/

namespace PipeSpec

/-- Corruption failures of the Streaming Channel Reader.
Modelled from the spec: "malformed frame header (length field implies a
record exceeding a sane maximum, or trailing bytes insufficient to complete
a declared frame length) signals a corruption failure and aborts the
sequence". -/
inductive Corruption where
  /-- The declared payload length exceeds the sane maximum record size. -/
  | tooLong : Corruption
  /-- The trailing bytes are insufficient to complete a declared frame
  (or even a 4-byte header). -/
  | truncated : Corruption
deriving DecidableEq, Repr

/-- Decode a 4-byte little-endian length header. -/
def decodeLen (b0 b1 b2 b3 : Nat) : Nat :=
  b0 + 256 * b1 + 256 ^ 2 * b2 + 256 ^ 3 * b3

/-- Encode a length as a 4-byte little-endian header (low byte first). -/
def encodeLen (n : Nat) : List Nat :=
  [n % 256, n / 256 % 256, n / 256 ^ 2 % 256, n / 256 ^ 3 % 256]

/-- Length-prefixed framing of one record: 4-byte little-endian length
header followed by the payload. -/
def encodeRecord (payload : List Nat) : List Nat :=
  encodeLen payload.length ++ payload

/-- Encode a list of payloads as a single framed byte stream. -/
def encode (payloads : List (List Nat)) : List Nat :=
  (payloads.map encodeRecord).flatten

/-- Modelled from the spec: the Streaming Channel Reader's framing
algorithm run to end-of-file on a fully delivered stream. Repeatedly
parses a 4-byte header, checks the declared length against the sane
maximum `maxRec` and against the remaining bytes, slices out the payload
and advances. Empty input is normal end-of-file; a stream ending inside
a header or inside a declared payload is a corruption failure. -/
def readFrames (maxRec : Nat) : List Nat → Except Corruption (List (List Nat))
  | [] => .ok []
  | b0 :: b1 :: b2 :: b3 :: rest =>
    let len := decodeLen b0 b1 b2 b3
    if len > maxRec then .error .tooLong
    else if rest.length < len then .error .truncated
    else
      match readFrames maxRec (rest.drop len) with
      | .ok rs => .ok (rest.take len :: rs)
      | .error e => .error e
  | _ :: _ => .error .truncated
termination_by s => s.length
decreasing_by simp [List.length_drop]; omega

/-- Modelled from the spec: one buffer-assembly pass of the reader.
Extracts every complete frame currently in the buffer, in order, and
returns the surplus bytes (an incomplete tail) to be retained for the
next `read()`. A header declaring a length above the sane maximum is a
corruption failure the moment the header is seen; a merely incomplete
frame is not an error — the reader waits for more bytes. -/
def extractFrames (maxRec : Nat) :
    List Nat → Except Corruption (List (List Nat) × List Nat)
  | b0 :: b1 :: b2 :: b3 :: rest =>
    let len := decodeLen b0 b1 b2 b3
    if len > maxRec then .error .tooLong
    else if rest.length < len then .ok ([], b0 :: b1 :: b2 :: b3 :: rest)
    else
      match extractFrames maxRec (rest.drop len) with
      | .ok (rs, leftover) => .ok (rest.take len :: rs, leftover)
      | .error e => .error e
  | short => .ok ([], short)
termination_by s => s.length
decreasing_by simp [List.length_drop]; omega

/-- Modelled from the spec: the reader consuming the pipe through a
sequence of `read()` chunks, starting from buffer `buf`: each chunk is
appended to the buffer, complete frames are extracted and emitted, and
the surplus is carried to the next chunk. Returns the emitted records
and the final surplus buffer. -/
def runReader (maxRec : Nat) :
    List (List Nat) → List Nat → Except Corruption (List (List Nat) × List Nat)
  | [], buf => .ok ([], buf)
  | c :: cs, buf =>
    match extractFrames maxRec (buf ++ c) with
    | .error e => .error e
    | .ok (rs, leftover) =>
      match runReader maxRec cs leftover with
      | .error e => .error e
      | .ok (rs2, finalBuf) => .ok (rs ++ rs2, finalBuf)

/-- Modelled from the spec: the chunked reader run to end-of-file.
Surplus bytes left in the buffer at end-of-file mean the stream ended
inside a frame: a corruption failure. -/
def chunkedRead (maxRec : Nat) (chunks : List (List Nat)) :
    Except Corruption (List (List Nat)) :=
  match runReader maxRec chunks [] with
  | .error e => .error e
  | .ok (rs, []) => .ok rs
  | .ok (_, _ :: _) => .error .truncated

/-- Modelled from the spec: the repeat stage. Each repetition re-reads
the full channel from the start, so `r` passes over a channel holding
`records` yield the passes concatenated in order. -/
def repeatRecords (r : Nat) (records : List (List Nat)) : List (List Nat) :=
  (List.replicate r records).flatten

end PipeSpec

namespace Pipemode

/-!
Model of the `pipemode.py` training script embedded in
`tensorflow_script_mode_pipe_mode.ipynb` (cell-3): `_input_fn`'s
dataset staging, `_parse_args`, and the `__main__` export guard.
-/

open PipeSpec

/-- From `_input_fn` in `pipemode.py`: the dataset is
`PipeModeDataset(channel)`, with `ds = ds.repeat(EPOCHS)` applied only
when `EPOCHS > 1`. `stream` is the channel's pipe content for one pass;
record extraction is the spec-modelled reader `readFrames`. -/
def channelRecords (epochs maxRec : Nat) (stream : List Nat) :
    Except Corruption (List (List Nat)) :=
  match readFrames maxRec stream with
  | .error e => .error e
  | .ok rs => .ok (if epochs > 1 then repeatRecords epochs rs else rs)

/-- From `_input_fn` / `map_and_batch` (and spec section 4.3): group the
decoded examples into batches of `b` in arrival order; the final batch of
a finite sequence may be short. `b = 0` is not a meaningful batch size
and yields no batches. -/
def batchList : Nat → List α → List (List α)
  | _, [] => []
  | 0, _ :: _ => []
  | b + 1, x :: xs =>
    ((x :: xs).take (b + 1)) :: batchList (b + 1) ((x :: xs).drop (b + 1))
termination_by _ xs => xs.length
decreasing_by simp [List.length_drop]; omega

/-- Modelled from the spec (section 4.3): batching with
drop-incomplete-batch semantics — a final batch shorter than `b` is
omitted. -/
def batchListDrop : Nat → List α → List (List α)
  | 0, _ => []
  | b + 1, xs =>
    if xs.length < b + 1 then []
    else (xs.take (b + 1)) :: batchListDrop (b + 1) (xs.drop (b + 1))
termination_by _ xs => xs.length
decreasing_by simp [List.length_drop]; omega

/-- The namespace produced by `_parse_args` for the four declared
options of `pipemode.py`. `hosts` is a Python list value (the
`json.loads` of `SM_HOSTS` by default); the other three are strings or
`None`. -/
structure ParsedArgs where
  model_dir : Option String
  sm_model_dir : Option String
  hosts : List String
  current_host : Option String
deriving DecidableEq, Repr

/-- The SageMaker environment variables `_parse_args` reads for its
defaults, assumed set (with `SM_HOSTS` already parsed from its JSON
value). -/
structure SmEnv where
  sm_model_dir : String
  sm_hosts : List String
  sm_current_host : String
deriving DecidableEq, Repr

/-- The defaults `_parse_args` installs before reading the command
line: `--model_dir` has no default (`None`), the other three default to
the environment values. -/
def initialArgs (env : SmEnv) : ParsedArgs :=
  { model_dir := none
    sm_model_dir := some env.sm_model_dir
    hosts := env.sm_hosts
    current_host := some env.sm_current_host }

/-- The four option strings declared by `_parse_args`'s
`parser.add_argument` calls. -/
def declaredOpts : List String :=
  ["--model_dir", "--sm-model-dir", "--hosts", "--current-host"]

/-- Store a value under a declared option. `--hosts` has `type=list`,
which Python applies to the raw string, giving its list of
one-character strings. -/
def setOpt (ns : ParsedArgs) (opt v : String) : ParsedArgs :=
  if opt = "--model_dir" then { ns with model_dir := some v }
  else if opt = "--sm-model-dir" then { ns with sm_model_dir := some v }
  else if opt = "--hosts" then
    { ns with hosts := v.data.map (fun c => String.mk [c]) }
  else { ns with current_host := some v }

/-- All option strings registered on the parser `_parse_args` builds:
`argparse.ArgumentParser()` with default `add_help=True` auto-adds a help
action under `-h`/`--help`, followed by the four declared options. -/
def optionStrings : List String :=
  ["-h", "--help", "--model_dir", "--sm-model-dir", "--hosts", "--current-host"]

/-- The registered option strings beginning with `--`, the candidates for
argparse's `allow_abbrev` prefix matching. -/
def longOptionStrings : List String :=
  ["--help", "--model_dir", "--sm-model-dir", "--hosts", "--current-host"]

/-- The option strings of the auto-added help action. -/
def helpOpts : List String := ["-h", "--help"]

/-- Split a character list at its first occurrence of `sep`, when one is
present (CPython `str.split(sep, 1)`). -/
def splitAtChar (sep : Char) : List Char → Option (List Char × List Char)
  | [] => none
  | c :: cs =>
    if c == sep then some ([], cs)
    else
      match splitAtChar sep cs with
      | none => none
      | some (a, b) => some (c :: a, b)

/-- Whether the first list is an initial segment of the second
(CPython `str.startswith`). -/
def leadMatch : List Char → List Char → Bool
  | [], _ => true
  | _ :: _, [] => false
  | a :: as, b :: bs => a == b && leadMatch as bs

/-- CPython argparse `_negative_number_matcher`
(regex `^-\d+$|^-\d*\.\d+$`), applied to the characters after the
leading `-`. -/
def negNumberTail (cs : List Char) : Bool :=
  match splitAtChar '.' cs with
  | none => !cs.isEmpty && cs.all Char.isDigit
  | some (a, b) => a.all Char.isDigit && !b.isEmpty && b.all Char.isDigit

/-- How argparse classifies one command-line token
(`_parse_optional` returning `None`, a known action, or an unknown
optional). -/
inductive TokenKind where
  /-- `_parse_optional` returns `None`: a plain (positional) argument,
  consumable as an option's value. -/
  | positional : TokenKind
  /-- Looks like an option string but matches no registered option:
  collected into the unknown-arguments list by `parse_known_args`. -/
  | unknownOption : TokenKind
  /-- Abbreviates more than one registered long option: argparse exits
  with an "ambiguous option" error during classification. -/
  | ambiguous : TokenKind
  /-- Resolves (exactly, via `=`-attachment, or via unique `allow_abbrev`
  prefix) to the registered option `opt`, with its attached explicit
  value when one was given. -/
  | matched (opt : String) (attached : Option String) : TokenKind
deriving DecidableEq, Repr

/-- CPython argparse `_get_option_tuples` for this parser's options: for
a `--`-token, every registered long option the part before any `=`
abbreviates; for a single-dash token, the only short option is `-h`, so
a longer token starting with `-h` is `-h` with the remainder as its
attached explicit argument. -/
def optionTuples (tok : String) : List (String × Option String) :=
  match tok.data with
  | '-' :: '-' :: _ =>
    let ba :=
      match splitAtChar '=' tok.data with
      | some (a, b) => (a, some (String.mk b))
      | none => (tok.data, none)
    (longOptionStrings.filter (fun o => leadMatch ba.1 o.data)).map
      (fun o => (o, ba.2))
  | '-' :: 'h' :: rest => [("-h", some (String.mk rest))]
  | _ => []

/-- The tail of `_parse_optional` after the exact-match steps: unique
abbreviation wins, several candidates are ambiguous, and an unmatched
token is a negative number or space-bearing positional, or else an
unknown optional — in argparse's checking order. -/
def classifyTail (tok : String) (cs : List Char) : TokenKind :=
  match optionTuples tok with
  | [] =>
    if negNumberTail cs then .positional
    else if tok.data.contains ' ' then .positional
    else .unknownOption
  | [(o, a)] => .matched o a
  | _ :: _ :: _ => .ambiguous

/-- Model of CPython argparse `_parse_optional` for this parser: tokens
not starting with `-`, and the bare `-`, are positional; an exact
registered option string (plain or before `=`) matches directly; then
`allow_abbrev` prefix matching, negative numbers, and space-bearing
tokens, in argparse's order. (The bare `--` separator token is not
modelled; it classifies as ambiguous here and `wellFormedArgs` below
excludes it.) -/
def classify (tok : String) : TokenKind :=
  match tok.data with
  | [] => .positional
  | c :: cs =>
    if c ≠ '-' then .positional
    else if tok ∈ optionStrings then .matched tok none
    else if cs.isEmpty then .positional
    else
      match splitAtChar '=' (c :: cs) with
      | some (base, val) =>
        if String.mk base ∈ optionStrings then
          .matched (String.mk base) (some (String.mk val))
        else classifyTail tok cs
      | none => classifyTail tok cs

/-- The ways `_parse_args` can fail to return normally: argparse errors
print a usage message and raise `SystemExit(2)`, while the auto-added
help action prints the help text and raises `SystemExit(0)`. -/
inductive ArgError where
  /-- A registered option found no consumable value token. -/
  | expectedOneArgument (opt : String) : ArgError
  /-- A token abbreviates more than one registered long option. -/
  | ambiguousOption (tok : String) : ArgError
  /-- An attached explicit value was given to the zero-argument help
  action. -/
  | ignoredExplicitArgument (opt : String) : ArgError
  /-- The help action ran: help text is printed and `SystemExit(0)`
  raised, so the call does not return. -/
  | helpRequested : ArgError
deriving DecidableEq, Repr

/-- Model of CPython `argparse.ArgumentParser.parse_known_args` for the
parser `_parse_args` builds (default settings: auto help action,
`allow_abbrev` prefix matching). argparse first classifies every token
(an ambiguous abbreviation anywhere aborts), then consumes them in
order: a help token runs the help action (no return); a registered
option takes its attached value or consumes the next token when that
token is positional, else errors; every other token is collected, in
order, into the unknown-arguments list. -/
def parse_known_args (env : SmEnv) (args : List String) :
    Except ArgError (ParsedArgs × List String) :=
  match args.find? (fun t => classify t == TokenKind.ambiguous) with
  | some t => .error (.ambiguousOption t)
  | none => go (initialArgs env) args
where
  /-- Token-by-token consumption accumulating the namespace and extras. -/
  go (ns : ParsedArgs) : List String → Except ArgError (ParsedArgs × List String)
    | [] => .ok (ns, [])
    | [tok] =>
      match classify tok with
      | .ambiguous => .error (.ambiguousOption tok)
      | .positional => .ok (ns, [tok])
      | .unknownOption => .ok (ns, [tok])
      | .matched opt attached =>
        if opt ∈ helpOpts then
          match attached with
          | some _ => .error (.ignoredExplicitArgument opt)
          | none => .error .helpRequested
        else
          match attached with
          | some v => .ok (setOpt ns opt v, [])
          | none => .error (.expectedOneArgument opt)
    | tok :: v :: rest2 =>
      match classify tok with
      | .ambiguous => .error (.ambiguousOption tok)
      | .positional =>
        (match go ns (v :: rest2) with
         | .error e => .error e
         | .ok (ns2, unk) => .ok (ns2, tok :: unk))
      | .unknownOption =>
        (match go ns (v :: rest2) with
         | .error e => .error e
         | .ok (ns2, unk) => .ok (ns2, tok :: unk))
      | .matched opt attached =>
        if opt ∈ helpOpts then
          match attached with
          | some _ => .error (.ignoredExplicitArgument opt)
          | none => .error .helpRequested
        else
          match attached with
          | some w => go (setOpt ns opt w) (v :: rest2)
          | none =>
            if classify v == TokenKind.positional then go (setOpt ns opt v) rest2
            else .error (.expectedOneArgument opt)

/-- The argument lists on which `parse_known_args` returns normally: no
token invokes the help action or is an ambiguous abbreviation (or the
unmodelled bare `--`), and every declared-option occurrence without an
attached value is immediately followed by a positional value token. -/
def wellFormedArgs : List String → Bool
  | [] => true
  | [tok] =>
    match classify tok with
    | .positional => true
    | .unknownOption => true
    | .ambiguous => false
    | .matched opt attached => decide (opt ∈ declaredOpts) && attached.isSome
  | tok :: v :: rest2 =>
    match classify tok with
    | .positional => wellFormedArgs (v :: rest2)
    | .unknownOption => wellFormedArgs (v :: rest2)
    | .ambiguous => false
    | .matched opt attached =>
      decide (opt ∈ declaredOpts) &&
        (match attached with
         | some _ => wellFormedArgs (v :: rest2)
         | none => (classify v == TokenKind.positional) && wellFormedArgs rest2)

/-- The "arguments beyond the four declared options" of an argument
list: every token except the declared-option occurrences (exact,
`=`-attached or abbreviated) and the value token each valueless
occurrence consumes — in original order. Stated from the spec's words as
the expected content of the unknown-arguments list. -/
def unconsumedTokens : List String → List String
  | [] => []
  | [tok] =>
    match classify tok with
    | .matched opt _ => if opt ∈ declaredOpts then [] else [tok]
    | _ => [tok]
  | tok :: v :: rest2 =>
    match classify tok with
    | .matched opt attached =>
      if opt ∈ declaredOpts then
        match attached with
        | some _ => unconsumedTokens (v :: rest2)
        | none => unconsumedTokens rest2
      else tok :: unconsumedTokens (v :: rest2)
    | _ => tok :: unconsumedTokens (v :: rest2)

/-- Python runtime errors reachable in the modelled fragments. -/
inductive PyError where
  /-- Indexing an empty list (`args.hosts[0]`). -/
  | indexError : PyError
  /-- Evaluating a name that was never bound. -/
  | nameError : PyError
deriving DecidableEq, Repr

/-- From the `__main__` block of `pipemode.py`: after
`train_and_evaluate`, `export_savedmodel` runs exactly under the guard
`args.current_host == args.hosts[0]`. Returns whether the export is
performed; Python's `hosts[0]` raises `IndexError` on an empty list. -/
def exportPerformed (current_host : String) (hosts : List String) :
    Except PyError Bool :=
  match hosts with
  | [] => .error .indexError
  | h :: _ => .ok (current_host = h)

end Pipemode

namespace UnityNb

/-!
Model of the "Plot metrics for training job" cell of
`unity_mlagents_learn.ipynb`.
-/

/-- Outcome of the `TrainingJobAnalytics(job_name, [...]).dataframe()`
call: either a dataframe with `rows` metric rows, or a `KeyError`
because the expected metric is not yet present. -/
inductive AnalyticsOutcome where
  | ready (rows : Nat) : AnalyticsOutcome
  | keyError : AnalyticsOutcome
deriving DecidableEq, Repr

/-- What the cell ends up doing. -/
inductive CellAction where
  /-- `local_mode` branch: prints "Can't plot metrics in local mode." -/
  | localModeMessage : CellAction
  /-- Prints "No algorithm metrics found in CloudWatch". -/
  | noMetricsMessage : CellAction
  /-- Plots the `rows` metric rows. -/
  | plot (rows : Nat) : CellAction
deriving DecidableEq, Repr

/-- Python name lookup: a name never bound raises `NameError`. -/
def lookupName (v : Option Nat) : Except Pipemode.PyError Nat :=
  match v with
  | none => .error .nameError
  | some n => .ok n

/-- The metric-plot cell, translated statement by statement. The
session binds no `df` before this cell, so `df` starts unbound. The
`try` binds `df` on success; the `except KeyError` handler prints the
not-ready message and leaves `df` unbound. Control then falls through
to `num_metrics = len(df)` in both cases. Returns the printed not-ready
flag together with the cell's result — `.error` is an uncaught Python
exception escaping the cell. -/
def plotMetricsCell (localMode : Bool) (a : AnalyticsOutcome) :
    Bool × Except Pipemode.PyError CellAction :=
  if localMode then (false, .ok .localModeMessage)
  else
    let df : Option Nat :=
      match a with
      | .ready n => some n
      | .keyError => none
    let notReadyPrinted : Bool :=
      match a with
      | .ready _ => false
      | .keyError => true
    match lookupName df with
    | .error e => (notReadyPrinted, .error e)
    | .ok numMetrics =>
      (notReadyPrinted,
        .ok (if numMetrics = 0 then .noMetricsMessage else .plot numMetrics))

end UnityNb


namespace PipeSpec

theorem decodeLen_encodeLen (n : Nat) (h : n < 2 ^ 32) :
    decodeLen (n % 256) (n / 256 % 256) (n / 256 ^ 2 % 256) (n / 256 ^ 3 % 256) = n := by
  simp only [decodeLen]
  norm_num
  omega

theorem encodeLen_decodeLen (b0 b1 b2 b3 : Nat) (h0 : b0 < 256) (h1 : b1 < 256)
    (h2 : b2 < 256) (h3 : b3 < 256) :
    encodeLen (decodeLen b0 b1 b2 b3) = [b0, b1, b2, b3] := by
  simp only [encodeLen, decodeLen, List.cons.injEq, and_true]
  norm_num
  omega

theorem decodeLen_lt (b0 b1 b2 b3 : Nat) (h0 : b0 < 256) (h1 : b1 < 256)
    (h2 : b2 < 256) (h3 : b3 < 256) : decodeLen b0 b1 b2 b3 < 2 ^ 32 := by
  simp only [decodeLen]
  norm_num
  omega

theorem readFrames_encode_append (maxRec : Nat) (hmax : maxRec < 2 ^ 32)
    (ps : List (List Nat)) (s : List Nat) (hlen : ∀ p ∈ ps, p.length ≤ maxRec) :
    readFrames maxRec (encode ps ++ s) =
      match readFrames maxRec s with
      | .ok rs => .ok (ps ++ rs)
      | .error e => .error e := by
  induction ps with
  | nil =>
    simp only [encode, List.map_nil, List.flatten_nil, List.nil_append]
    cases readFrames maxRec s <;> simp
  | cons p ps ih =>
    have hp : p.length ≤ maxRec := hlen p (List.mem_cons_self p ps)
    have hp32 : p.length < 2 ^ 32 := lt_of_le_of_lt hp hmax
    have hps : ∀ q ∈ ps, q.length ≤ maxRec := fun q hq => hlen q (List.mem_cons_of_mem p hq)
    have hshape : encode (p :: ps) ++ s
        = p.length % 256 :: p.length / 256 % 256 :: p.length / 256 ^ 2 % 256 ::
          p.length / 256 ^ 3 % 256 :: (p ++ (encode ps ++ s)) := by
      simp [encode, encodeRecord, encodeLen]
    rw [hshape]
    rw [readFrames]
    rw [decodeLen_encodeLen p.length hp32]
    have hnot : ¬ p.length > maxRec := by omega
    have hlenrest : ¬ (p ++ (encode ps ++ s)).length < p.length := by
      simp [List.length_append]
    simp only [hnot, if_false, hlenrest]
    rw [List.take_append_of_le_length (le_refl _), List.drop_append_of_le_length (le_refl _)]
    simp only [List.take_length, List.drop_length, List.nil_append]
    rw [ih hps]
    cases readFrames maxRec s <;> simp

end PipeSpec

namespace PipeSpec

theorem readFrames_eq_extractFrames (maxRec : Nat) (s : List Nat) :
    readFrames maxRec s =
      match extractFrames maxRec s with
      | .ok (rs, []) => .ok rs
      | .ok (_, _ :: _) => .error .truncated
      | .error e => .error e := by
  induction s using extractFrames.induct maxRec with
  | case1 b0 b1 b2 b3 rest len hgt =>
    rw [readFrames, extractFrames]
    simp only [gt_iff_lt] at hgt
    simp [hgt]
  | case2 b0 b1 b2 b3 rest len hgt hlt =>
    rw [readFrames, extractFrames]
    simp only [gt_iff_lt] at hgt
    simp [hgt, hlt]
  | case3 b0 b1 b2 b3 rest len hgt hlt rs leftover hrec ih =>
    rw [readFrames, extractFrames]
    simp only [gt_iff_lt] at hgt
    rw [hrec] at ih
    cases leftover with
    | nil => simp [hgt, hlt, hrec, ih]
    | cons a t => simp [hgt, hlt, hrec, ih]
  | case4 b0 b1 b2 b3 rest len hgt hlt e hrec ih =>
    rw [readFrames, extractFrames]
    simp only [gt_iff_lt] at hgt
    rw [hrec] at ih
    simp [hgt, hlt, hrec, ih]
  | case5 short hshape =>
    match short, hshape with
    | [], _ => simp [readFrames, extractFrames]
    | [a], _ => simp [readFrames, extractFrames]
    | [a, b], _ => simp [readFrames, extractFrames]
    | [a, b, c], _ => simp [readFrames, extractFrames]
    | a :: b :: c :: d :: t, h => exact absurd rfl (h a b c d t)

end PipeSpec

namespace PipeSpec

theorem extractFrames_leftover (maxRec : Nat) (s : List Nat) :
    ∀ rs l, extractFrames maxRec s = .ok (rs, l) → extractFrames maxRec l = .ok ([], l) := by
  induction s using extractFrames.induct maxRec with
  | case1 b0 b1 b2 b3 rest len hgt =>
    intro rs l h
    rw [extractFrames] at h
    simp only [gt_iff_lt] at hgt
    simp [hgt] at h
  | case2 b0 b1 b2 b3 rest len hgt hlt =>
    intro rs l h
    rw [extractFrames] at h
    simp only [gt_iff_lt] at hgt
    simp [hgt, hlt] at h
    obtain ⟨h1, h2⟩ := h
    subst h2
    rw [extractFrames]
    simp [hgt, hlt]
  | case3 b0 b1 b2 b3 rest len hgt hlt rs2 leftover hrec ih =>
    intro rs l h
    rw [extractFrames] at h
    simp only [gt_iff_lt] at hgt
    simp [hgt, hlt, hrec] at h
    exact h.2 ▸ ih rs2 leftover hrec
  | case4 b0 b1 b2 b3 rest len hgt hlt e hrec ih =>
    intro rs l h
    rw [extractFrames] at h
    simp only [gt_iff_lt] at hgt
    simp [hgt, hlt, hrec] at h
  | case5 short hshape =>
    intro rs l h
    match short, hshape with
    | [], _ => simp [extractFrames] at h; obtain ⟨h1, h2⟩ := h; subst h2; simp [extractFrames]
    | [a], _ => simp [extractFrames] at h; obtain ⟨h1, h2⟩ := h; subst h2; simp [extractFrames]
    | [a, b], _ => simp [extractFrames] at h; obtain ⟨h1, h2⟩ := h; subst h2; simp [extractFrames]
    | [a, b, c], _ => simp [extractFrames] at h; obtain ⟨h1, h2⟩ := h; subst h2; simp [extractFrames]
    | a :: b :: c :: d :: t, hh => exact absurd rfl (hh a b c d t)

end PipeSpec

namespace PipeSpec

theorem extractFrames_append (maxRec : Nat) (s extra : List Nat) :
    extractFrames maxRec (s ++ extra) =
      match extractFrames maxRec s with
      | .error e => .error e
      | .ok (rs, l) =>
        match extractFrames maxRec (l ++ extra) with
        | .error e => .error e
        | .ok (rs2, l2) => .ok (rs ++ rs2, l2) := by
  induction s using extractFrames.induct maxRec with
  | case1 b0 b1 b2 b3 rest len hgt =>
    simp only [gt_iff_lt] at hgt
    simp only [List.cons_append]
    rw [extractFrames, extractFrames]
    simp [hgt]
  | case2 b0 b1 b2 b3 rest len hgt hlt =>
    simp only [gt_iff_lt] at hgt
    conv_rhs => rw [extractFrames]
    simp only [hgt, if_false, hlt, if_true, List.cons_append]
    cases hx : extractFrames maxRec (b0 :: b1 :: b2 :: b3 :: (rest ++ extra)) with
    | ok p => cases p; simp [hx]
    | error e => simp [hx]
  | case3 b0 b1 b2 b3 rest len hgt hlt rs2 leftover hrec ih =>
    simp only [gt_iff_lt] at hgt
    have hlen : len ≤ rest.length := Nat.le_of_not_lt hlt
    simp only [List.cons_append]
    conv_lhs => rw [extractFrames]
    conv_rhs => rw [extractFrames]
    simp only [hgt, if_false, hlt, hrec]
    have h1 : ¬ (rest ++ extra).length < len := by
      simp [List.length_append]; omega
    simp only [h1, if_false]
    rw [List.take_append_of_le_length hlen, List.drop_append_of_le_length hlen]
    rw [ih]
    rw [hrec]
    cases hx : extractFrames maxRec (leftover ++ extra) with
    | ok p => cases p; simp [hx]
    | error e => simp [hx]
  | case4 b0 b1 b2 b3 rest len hgt hlt e hrec ih =>
    simp only [gt_iff_lt] at hgt
    have hlen : len ≤ rest.length := Nat.le_of_not_lt hlt
    simp only [List.cons_append]
    conv_lhs => rw [extractFrames]
    conv_rhs => rw [extractFrames]
    simp only [hgt, if_false, hlt, hrec]
    have h1 : ¬ (rest ++ extra).length < len := by
      simp [List.length_append]; omega
    simp only [h1, if_false]
    rw [List.take_append_of_le_length hlen, List.drop_append_of_le_length hlen]
    rw [ih]
    rw [hrec]
  | case5 short hshape =>
    have hs : extractFrames maxRec short = .ok ([], short) := by
      match short, hshape with
      | [], _ => simp [extractFrames]
      | [a], _ => simp [extractFrames]
      | [a, b], _ => simp [extractFrames]
      | [a, b, c], _ => simp [extractFrames]
      | a :: b :: c :: d :: t, hh => exact absurd rfl (hh a b c d t)
    rw [hs]
    cases hx : extractFrames maxRec (short ++ extra) with
    | ok p => cases p; simp [hx]
    | error e => simp [hx]

end PipeSpec

namespace PipeSpec

theorem runReader_eq_extractFrames (maxRec : Nat) (chunks : List (List Nat)) :
    ∀ buf, extractFrames maxRec buf = .ok ([], buf) →
      runReader maxRec chunks buf = extractFrames maxRec (buf ++ chunks.flatten) := by
  induction chunks with
  | nil =>
    intro buf hbuf
    simp [runReader, hbuf]
  | cons c cs ih =>
    intro buf hbuf
    have hsplit : buf ++ (c :: cs).flatten = (buf ++ c) ++ cs.flatten := by
      simp [List.flatten_cons, List.append_assoc]
    rw [hsplit, extractFrames_append maxRec (buf ++ c) cs.flatten]
    rw [runReader]
    cases hx : extractFrames maxRec (buf ++ c) with
    | error e => simp
    | ok p =>
      obtain ⟨rs, l⟩ := p
      have hl : extractFrames maxRec l = .ok ([], l) :=
        extractFrames_leftover maxRec (buf ++ c) rs l hx
      dsimp only
      rw [ih l hl]

theorem chunkedRead_eq_readFrames (maxRec : Nat) (chunks : List (List Nat)) :
    chunkedRead maxRec chunks = readFrames maxRec chunks.flatten := by
  have h0 : extractFrames maxRec [] = .ok ([], []) := by simp [extractFrames]
  rw [chunkedRead]
  rw [runReader_eq_extractFrames maxRec chunks [] h0]
  rw [readFrames_eq_extractFrames]
  simp only [List.nil_append]
  cases hx : extractFrames maxRec chunks.flatten with
  | error e => simp
  | ok p => obtain ⟨rs, l⟩ := p; cases l <;> simp

end PipeSpec

namespace PipeSpec

theorem extractFrames_decomposition (maxRec : Nat) (s : List Nat) :
    ∀ rs l, (∀ b ∈ s, b < 256) → extractFrames maxRec s = .ok (rs, l) →
      s = (rs.map encodeRecord).flatten ++ l := by
  induction s using extractFrames.induct maxRec with
  | case1 b0 b1 b2 b3 rest len hgt =>
    intro rs l hb h
    rw [extractFrames] at h
    simp only [gt_iff_lt] at hgt
    simp [hgt] at h
  | case2 b0 b1 b2 b3 rest len hgt hlt =>
    intro rs l hb h
    rw [extractFrames] at h
    simp only [gt_iff_lt] at hgt
    simp [hgt, hlt] at h
    obtain ⟨h1, h2⟩ := h
    subst h1
    subst h2
    simp
  | case3 b0 b1 b2 b3 rest len hgt hlt rs2 leftover hrec ih =>
    intro rs l hb h
    rw [extractFrames] at h
    simp only [gt_iff_lt] at hgt
    simp [hgt, hlt, hrec] at h
    obtain ⟨h1, h2⟩ := h
    subst h1
    subst h2
    have hlen : len ≤ rest.length := Nat.le_of_not_lt hlt
    have hb0 : b0 < 256 := hb b0 (by simp)
    have hb1 : b1 < 256 := hb b1 (by simp)
    have hb2 : b2 < 256 := hb b2 (by simp)
    have hb3 : b3 < 256 := hb b3 (by simp)
    have hbrest : ∀ b ∈ List.drop len rest, b < 256 := by
      intro b hbm
      refine hb b ?_
      have : b ∈ rest := List.mem_of_mem_drop hbm
      simp [this]
    have hsub := ih rs2 leftover hbrest hrec
    have htl : (List.take len rest).length = len := by
      simp [List.length_take]; omega
    simp only [List.map_cons, List.flatten_cons, encodeRecord, htl]
    rw [encodeLen_decodeLen b0 b1 b2 b3 hb0 hb1 hb2 hb3]
    have : (rs2.map encodeRecord).flatten ++ leftover = List.drop len rest := hsub.symm
    simp only [List.append_assoc, this]
    simp [List.take_append_drop]
  | case4 b0 b1 b2 b3 rest len hgt hlt e hrec ih =>
    intro rs l hb h
    rw [extractFrames] at h
    simp only [gt_iff_lt] at hgt
    simp [hgt, hlt, hrec] at h
  | case5 short hshape =>
    intro rs l hb h
    match short, hshape with
    | [], _ => simp [extractFrames] at h; obtain ⟨h1, h2⟩ := h; subst h1; subst h2; simp
    | [a], _ => simp [extractFrames] at h; obtain ⟨h1, h2⟩ := h; subst h1; subst h2; simp
    | [a, b], _ => simp [extractFrames] at h; obtain ⟨h1, h2⟩ := h; subst h1; subst h2; simp
    | [a, b, c], _ => simp [extractFrames] at h; obtain ⟨h1, h2⟩ := h; subst h1; subst h2; simp
    | a :: b :: c :: d :: t, hh => exact absurd rfl (hh a b c d t)

end PipeSpec


namespace Pipemode

theorem batchList_flatten {α : Type} (b : Nat) (hb : 0 < b) (xs : List α) :
    (batchList b xs).flatten = xs := by
  induction b, xs using batchList.induct with
  | case1 b => simp [batchList]
  | case2 x t => omega
  | case3 b x xs ih =>
    rw [batchList]
    simp only [List.flatten_cons]
    rw [ih (by omega)]
    exact List.take_append_drop (b + 1) (x :: xs)

theorem batchList_dropLast_full {α : Type} (b : Nat) (hb : 0 < b) (xs : List α) :
    ∀ c ∈ (batchList b xs).dropLast, c.length = b := by
  induction b, xs using batchList.induct with
  | case1 b => simp [batchList]
  | case2 x t => omega
  | case3 b x xs ih =>
    rw [batchList]
    intro c hc
    cases hrest : batchList (b + 1) (List.drop (b + 1) (x :: xs)) with
    | nil => rw [hrest] at hc; simp at hc
    | cons r rt =>
      rw [hrest, List.dropLast_cons₂] at hc
      rcases List.mem_cons.mp hc with h | h
      · subst h
        have hdrop : List.drop (b + 1) (x :: xs) ≠ [] := by
          intro hx
          rw [hx] at hrest
          rw [batchList] at hrest
          exact List.noConfusion hrest
        have hxl : (x :: xs).length = xs.length + 1 := rfl
        have : (b + 1) < (x :: xs).length := by
          by_contra hle
          exact hdrop (List.drop_eq_nil_iff.mpr (by omega))
        simp [List.length_take]
        omega
      · rw [← hrest] at h
        exact ih (by omega) c h

theorem batchList_le {α : Type} (b : Nat) (xs : List α) :
    ∀ c ∈ batchList b xs, c.length ≤ b ∧ c ≠ [] := by
  induction b, xs using batchList.induct with
  | case1 b => simp [batchList]
  | case2 x t => simp [batchList]
  | case3 b x xs ih =>
    rw [batchList]
    intro c hc
    rcases List.mem_cons.mp hc with h | h
    · subst h
      constructor
      · simp [List.length_take]
      · simp
    · exact ih c h

theorem batchListDrop_eq_filter {α : Type} (b : Nat) (xs : List α) :
    batchListDrop b xs = (batchList b xs).filter (fun c => c.length == b) := by
  induction b, xs using batchListDrop.induct with
  | case1 xs =>
    rw [batchListDrop]
    cases xs with
    | nil => simp [batchList]
    | cons x t =>
      rw [batchList]
      simp
  | case2 b xs hlt =>
    rw [batchListDrop]
    simp only [hlt, if_true]
    cases xs with
    | nil => simp [batchList]
    | cons x t =>
      simp only [List.length_cons] at hlt
      rw [batchList]
      have hdrop : List.drop (b + 1) (x :: t) = [] := by
        rw [List.drop_eq_nil_iff]
        simp only [List.length_cons]
        omega
      rw [hdrop]
      rw [batchList]
      have htk : ((List.take (b + 1) (x :: t)).length == b + 1) = false := by
        simp [List.length_take]
        omega
      simp [List.filter_cons, htk]
      omega
  | case3 b xs hlt ih =>
    rw [batchListDrop]
    simp only [hlt, if_false]
    cases xs with
    | nil => simp at hlt
    | cons x t =>
      simp only [List.length_cons, not_lt] at hlt
      rw [batchList]
      have htk : ((List.take (b + 1) (x :: t)).length == b + 1) = true := by
        simp [List.length_take]
        omega
      simp only [List.filter_cons, htk, if_true]
      rw [ih]

end Pipemode

namespace Pipemode

theorem classify_declared : ∀ t ∈ declaredOpts, classify t = .matched t none := by
  decide

theorem declared_not_help : ∀ t ∈ declaredOpts, t ∉ helpOpts := by
  decide

theorem wellFormed_no_ambiguous :
    ∀ args : List String, wellFormedArgs args = true →
      ∀ t ∈ args, ¬ classify t = TokenKind.ambiguous := by
  intro args
  induction args using wellFormedArgs.induct with
  | case1 =>
    intro _ t ht
    simp at ht
  | case2 tok hcl =>
    intro _ t ht
    simp at ht
    subst ht
    simp [hcl]
  | case3 tok hcl =>
    intro _ t ht
    simp at ht
    subst ht
    simp [hcl]
  | case4 tok hcl =>
    intro hwf
    rw [wellFormedArgs] at hwf
    simp [hcl] at hwf
  | case5 tok opt attached hcl =>
    intro _ t ht
    simp at ht
    subst ht
    simp [hcl]
  | case6 tok v rest2 hcl ih =>
    intro hwf t ht
    rw [wellFormedArgs] at hwf
    simp only [hcl] at hwf
    rcases List.mem_cons.mp ht with h | h
    · subst h
      simp [hcl]
    · exact ih hwf t h
  | case7 tok v rest2 hcl ih =>
    intro hwf t ht
    rw [wellFormedArgs] at hwf
    simp only [hcl] at hwf
    rcases List.mem_cons.mp ht with h | h
    · subst h
      simp [hcl]
    · exact ih hwf t h
  | case8 tok v rest2 hcl =>
    intro hwf
    rw [wellFormedArgs] at hwf
    simp [hcl] at hwf
  | case9 tok v rest2 opt attached hcl ih1 ih2 =>
    intro hwf t ht
    rw [wellFormedArgs] at hwf
    simp only [hcl, Bool.and_eq_true, decide_eq_true_eq] at hwf
    obtain ⟨hdecl, hrest⟩ := hwf
    rcases List.mem_cons.mp ht with h | h
    · subst h
      simp [hcl]
    · cases attached with
      | some w => exact ih1 hrest t h
      | none =>
        simp only [Bool.and_eq_true, beq_iff_eq] at hrest
        obtain ⟨hv, hwf2⟩ := hrest
        rcases List.mem_cons.mp h with h2 | h2
        · subst h2
          simp [hv]
        · exact ih2 hwf2 t h2

theorem go_wellFormed :
    ∀ args : List String, wellFormedArgs args = true →
      ∀ ns : ParsedArgs, ∃ ns2,
        parse_known_args.go ns args = .ok (ns2, unconsumedTokens args) := by
  intro args
  induction args using wellFormedArgs.induct with
  | case1 =>
    intro _ ns
    exact ⟨ns, rfl⟩
  | case2 tok hcl =>
    intro _ ns
    refine ⟨ns, ?_⟩
    rw [parse_known_args.go, unconsumedTokens]
    simp [hcl]
  | case3 tok hcl =>
    intro _ ns
    refine ⟨ns, ?_⟩
    rw [parse_known_args.go, unconsumedTokens]
    simp [hcl]
  | case4 tok hcl =>
    intro hwf
    rw [wellFormedArgs] at hwf
    simp [hcl] at hwf
  | case5 tok opt attached hcl =>
    intro hwf ns
    rw [wellFormedArgs] at hwf
    simp only [hcl, Bool.and_eq_true, decide_eq_true_eq] at hwf
    obtain ⟨hdecl, hsome⟩ := hwf
    obtain ⟨v, hv⟩ := Option.isSome_iff_exists.mp hsome
    subst hv
    refine ⟨setOpt ns opt v, ?_⟩
    rw [parse_known_args.go, unconsumedTokens]
    simp [hcl, hdecl, declared_not_help opt hdecl]
  | case6 tok v rest2 hcl ih =>
    intro hwf ns
    rw [wellFormedArgs] at hwf
    simp only [hcl] at hwf
    obtain ⟨ns2, hgo⟩ := ih hwf ns
    refine ⟨ns2, ?_⟩
    rw [parse_known_args.go, unconsumedTokens]
    simp [hcl, hgo]
  | case7 tok v rest2 hcl ih =>
    intro hwf ns
    rw [wellFormedArgs] at hwf
    simp only [hcl] at hwf
    obtain ⟨ns2, hgo⟩ := ih hwf ns
    refine ⟨ns2, ?_⟩
    rw [parse_known_args.go, unconsumedTokens]
    simp [hcl, hgo]
  | case8 tok v rest2 hcl =>
    intro hwf
    rw [wellFormedArgs] at hwf
    simp [hcl] at hwf
  | case9 tok v rest2 opt attached hcl ih1 ih2 =>
    intro hwf ns
    rw [wellFormedArgs] at hwf
    simp only [hcl, Bool.and_eq_true, decide_eq_true_eq] at hwf
    obtain ⟨hdecl, hrest⟩ := hwf
    cases attached with
    | some w =>
      obtain ⟨ns2, hgo⟩ := ih1 hrest (setOpt ns opt w)
      refine ⟨ns2, ?_⟩
      rw [parse_known_args.go, unconsumedTokens]
      simp [hcl, hdecl, declared_not_help opt hdecl, hgo]
    | none =>
      simp only [Bool.and_eq_true, beq_iff_eq] at hrest
      obtain ⟨hv, hwf2⟩ := hrest
      obtain ⟨ns2, hgo⟩ := ih2 hwf2 (setOpt ns opt v)
      refine ⟨ns2, ?_⟩
      rw [parse_known_args.go, unconsumedTokens]
      simp [hcl, hdecl, declared_not_help opt hdecl, hv, hgo]

theorem unconsumed_beyond_declared :
    ∀ args : List String, wellFormedArgs args = true →
      ∀ t ∈ unconsumedTokens args, t ∈ args ∧ t ∉ declaredOpts := by
  intro args
  induction args using wellFormedArgs.induct with
  | case1 =>
    intro _ t ht
    simp [unconsumedTokens] at ht
  | case2 tok hcl =>
    intro _ t ht
    rw [unconsumedTokens] at ht
    simp [hcl] at ht
    subst ht
    refine ⟨by simp, fun hd => ?_⟩
    rw [classify_declared t hd] at hcl
    exact TokenKind.noConfusion hcl
  | case3 tok hcl =>
    intro _ t ht
    rw [unconsumedTokens] at ht
    simp [hcl] at ht
    subst ht
    refine ⟨by simp, fun hd => ?_⟩
    rw [classify_declared t hd] at hcl
    exact TokenKind.noConfusion hcl
  | case4 tok hcl =>
    intro hwf
    rw [wellFormedArgs] at hwf
    simp [hcl] at hwf
  | case5 tok opt attached hcl =>
    intro hwf t ht
    rw [wellFormedArgs] at hwf
    simp only [hcl, Bool.and_eq_true, decide_eq_true_eq] at hwf
    rw [unconsumedTokens] at ht
    simp [hcl, hwf.1] at ht
  | case6 tok v rest2 hcl ih =>
    intro hwf t ht
    rw [wellFormedArgs] at hwf
    simp only [hcl] at hwf
    rw [unconsumedTokens] at ht
    simp only [hcl] at ht
    rcases List.mem_cons.mp ht with h | h
    · subst h
      refine ⟨by simp, fun hd => ?_⟩
      rw [classify_declared t hd] at hcl
      exact TokenKind.noConfusion hcl
    · obtain ⟨h1, h2⟩ := ih hwf t h
      exact ⟨List.mem_cons_of_mem tok h1, h2⟩
  | case7 tok v rest2 hcl ih =>
    intro hwf t ht
    rw [wellFormedArgs] at hwf
    simp only [hcl] at hwf
    rw [unconsumedTokens] at ht
    simp only [hcl] at ht
    rcases List.mem_cons.mp ht with h | h
    · subst h
      refine ⟨by simp, fun hd => ?_⟩
      rw [classify_declared t hd] at hcl
      exact TokenKind.noConfusion hcl
    · obtain ⟨h1, h2⟩ := ih hwf t h
      exact ⟨List.mem_cons_of_mem tok h1, h2⟩
  | case8 tok v rest2 hcl =>
    intro hwf
    rw [wellFormedArgs] at hwf
    simp [hcl] at hwf
  | case9 tok v rest2 opt attached hcl ih1 ih2 =>
    intro hwf t ht
    rw [wellFormedArgs] at hwf
    simp only [hcl, Bool.and_eq_true, decide_eq_true_eq] at hwf
    obtain ⟨hdecl, hrest⟩ := hwf
    rw [unconsumedTokens] at ht
    simp only [hcl, hdecl, if_true] at ht
    cases attached with
    | some w =>
      obtain ⟨h1, h2⟩ := ih1 hrest t ht
      exact ⟨List.mem_cons_of_mem tok h1, h2⟩
    | none =>
      simp only [Bool.and_eq_true, beq_iff_eq] at hrest
      obtain ⟨h1, h2⟩ := ih2 hrest.2 t ht
      exact ⟨List.mem_cons_of_mem tok (List.mem_cons_of_mem v h1), h2⟩

end Pipemode

/-!
## Claim theorems
-/

/-- Claim C1: the spec says a missing training metric (a `KeyError` from
the analytics lookup) is non-fatal — the cell reports "not ready yet" and
completes without raising any further error. The cell as written prints
the message but then executes `num_metrics = len(df)` with `df` unbound,
raising `NameError`: evaluated at the failing input (`local_mode = False`,
analytics lookup raises `KeyError`), the cell prints the not-ready message
and then raises. -/
theorem claim_C1_metric_plot_keyError_raises :
    UnityNb.plotMetricsCell false .keyError = (true, .error .nameError) := rfl

/-- Claim C2: encoding any list of payloads with the length-prefixed
framing (4-byte little-endian length header plus payload) and reading the
stream back through the Streaming Channel Reader yields exactly the same
payloads, byte-for-byte, in the same order (payload sizes within the
reader's sane maximum record size, itself within the 4-byte header
range). -/
theorem claim_C2_roundtrip (maxRec : Nat) (hmax : maxRec < 2 ^ 32)
    (payloads : List (List Nat)) (hlen : ∀ p ∈ payloads, p.length ≤ maxRec) :
    PipeSpec.readFrames maxRec (PipeSpec.encode payloads) = .ok payloads := by
  have h := PipeSpec.readFrames_encode_append maxRec hmax payloads [] hlen
  rw [List.append_nil] at h
  rw [h]
  simp [PipeSpec.readFrames]

/-- Witness for C2 at a concrete input. -/
theorem claim_C2_roundtrip_witness :
    PipeSpec.readFrames 1000 (PipeSpec.encode [[65, 66], [7]])
      = .ok [[65, 66], [7]] :=
  claim_C2_roundtrip 1000 (by decide) [[65, 66], [7]] (by decide)

/-- Claim C3: the record sequence produced by the Streaming Channel
Reader is independent of how the encoded byte stream is split across
`read()` chunks — any two chunkings of the same stream decode
identically, and the chunked reader refines the one-shot reader on the
whole stream. -/
theorem claim_C3_chunking_independence (maxRec : Nat)
    (chunks1 chunks2 : List (List Nat)) (h : chunks1.flatten = chunks2.flatten) :
    PipeSpec.chunkedRead maxRec chunks1 = PipeSpec.chunkedRead maxRec chunks2 ∧
    PipeSpec.chunkedRead maxRec chunks1 = PipeSpec.readFrames maxRec chunks1.flatten := by
  refine ⟨?_, PipeSpec.chunkedRead_eq_readFrames maxRec chunks1⟩
  rw [PipeSpec.chunkedRead_eq_readFrames, PipeSpec.chunkedRead_eq_readFrames, h]

/-- Witness for C3: the same two-record stream split into 1-byte chunks
and into chunks of sizes 3, 7, 1. -/
theorem claim_C3_chunking_independence_witness :
    PipeSpec.chunkedRead 100 [[2], [0], [0], [0], [10], [20], [1], [0], [0], [0], [30]]
      = PipeSpec.chunkedRead 100 [[2, 0, 0], [0, 10, 20, 1, 0, 0, 0], [30]] ∧
    PipeSpec.chunkedRead 100 [[2], [0], [0], [0], [10], [20], [1], [0], [0], [0], [30]]
      = PipeSpec.readFrames 100
          ([[2], [0], [0], [0], [10], [20], [1], [0], [0], [0], [30]] : List (List Nat)).flatten :=
  claim_C3_chunking_independence 100 _ _ (by decide)

/-- Claim C4: with repeat count `R ≥ 1` over a channel whose single pass
holds the records `rs`, the `_input_fn` pipeline yields exactly the `R`
passes concatenated in order (`R * K` records for `K` records per pass),
and with repeat count 1 the records of the single pass exactly once (the
repeat stage is skipped by the `EPOCHS > 1` guard). -/
theorem claim_C4_repeat_semantics (R maxRec : Nat) (hR : 1 ≤ R)
    (stream : List Nat) (rs : List (List Nat))
    (h : PipeSpec.readFrames maxRec stream = .ok rs) :
    Pipemode.channelRecords R maxRec stream = .ok ((List.replicate R rs).flatten) ∧
    ((List.replicate R rs).flatten).length = R * rs.length ∧
    Pipemode.channelRecords 1 maxRec stream = .ok rs := by
  refine ⟨?_, ?_, ?_⟩
  · rw [Pipemode.channelRecords, h]
    by_cases hR1 : R > 1
    · simp [hR1, PipeSpec.repeatRecords]
    · have : R = 1 := by omega
      subst this
      simp [PipeSpec.repeatRecords]
  · simp [List.length_flatten, List.map_replicate, List.sum_replicate, smul_eq_mul]
  · rw [Pipemode.channelRecords, h]
    simp

/-- Witness for C4 at repeat count 3 over a two-record channel. -/
theorem claim_C4_repeat_semantics_witness :
    Pipemode.channelRecords 3 100 (PipeSpec.encode [[1], [2]])
      = .ok ((List.replicate 3 [[1], [2]]).flatten) ∧
    ((List.replicate 3 ([[1], [2]] : List (List Nat))).flatten).length = 3 * 2 ∧
    Pipemode.channelRecords 1 100 (PipeSpec.encode [[1], [2]]) = .ok [[1], [2]] :=
  claim_C4_repeat_semantics 3 100 (by decide) (PipeSpec.encode [[1], [2]]) [[1], [2]]
    (by simp [PipeSpec.readFrames, PipeSpec.encode, PipeSpec.encodeRecord,
              PipeSpec.encodeLen, PipeSpec.decodeLen])

/-- Claim C5: a frame header declaring a payload longer than the sane
maximum record size, or longer than the bytes remaining in the stream,
makes the reader signal a corruption failure aborting the sequence (the
reader is a total function, so it cannot hang, and it returns an error
rather than any truncated record). -/
theorem claim_C5_corrupt_header (maxRec : Nat) (hmax : maxRec < 2 ^ 32)
    (ps : List (List Nat)) (hlen : ∀ p ∈ ps, p.length ≤ maxRec)
    (b0 b1 b2 b3 : Nat) (rest : List Nat) :
    (maxRec < PipeSpec.decodeLen b0 b1 b2 b3 →
      PipeSpec.readFrames maxRec (PipeSpec.encode ps ++ b0 :: b1 :: b2 :: b3 :: rest)
        = .error .tooLong) ∧
    (PipeSpec.decodeLen b0 b1 b2 b3 ≤ maxRec →
     rest.length < PipeSpec.decodeLen b0 b1 b2 b3 →
      PipeSpec.readFrames maxRec (PipeSpec.encode ps ++ b0 :: b1 :: b2 :: b3 :: rest)
        = .error .truncated) := by
  have h := PipeSpec.readFrames_encode_append maxRec hmax ps
    (b0 :: b1 :: b2 :: b3 :: rest) hlen
  constructor
  · intro hgt
    rw [h, PipeSpec.readFrames]
    simp [hgt]
  · intro hle hrest
    rw [h, PipeSpec.readFrames]
    simp [Nat.not_lt.mpr hle, hrest]

/-- Witness for C5: a header declaring 4294967295 bytes against a cap of
10, and a header declaring 3 bytes with only 1 byte remaining, each after
one good record. -/
theorem claim_C5_corrupt_header_witness :
    PipeSpec.readFrames 10 (PipeSpec.encode [[5]] ++ 255 :: 255 :: 255 :: 255 :: [])
      = .error .tooLong ∧
    PipeSpec.readFrames 10 (PipeSpec.encode [[5]] ++ 3 :: 0 :: 0 :: 0 :: [1])
      = .error .truncated :=
  ⟨(claim_C5_corrupt_header 10 (by decide) [[5]] (by decide) 255 255 255 255 []).1
      (by decide),
   (claim_C5_corrupt_header 10 (by decide) [[5]] (by decide) 3 0 0 0 [1]).2
      (by decide) (by decide)⟩

/-- Claim C6: the batching stage groups examples into batches of exactly
the target size in arrival order (flattening the batches restores the
input), with only the final batch possibly short; with
drop-incomplete-batch semantics exactly the full batches are kept. In
particular 10 examples with batch size 4 give sizes [4, 4, 2], and
[4, 4] with drop-incomplete enabled. -/
theorem claim_C6_batching :
    (∀ (B : Nat) (xs : List Nat), 0 < B →
      (Pipemode.batchList B xs).flatten = xs ∧
      (∀ c ∈ (Pipemode.batchList B xs).dropLast, c.length = B) ∧
      (∀ c ∈ Pipemode.batchList B xs, c.length ≤ B) ∧
      Pipemode.batchListDrop B xs
        = (Pipemode.batchList B xs).filter (fun c => c.length == B)) ∧
    (Pipemode.batchList 4 (List.range 10)).map List.length = [4, 4, 2] ∧
    (Pipemode.batchListDrop 4 (List.range 10)).map List.length = [4, 4] := by
  refine ⟨fun B xs hB => ⟨Pipemode.batchList_flatten B hB xs,
      Pipemode.batchList_dropLast_full B hB xs,
      fun c hc => (Pipemode.batchList_le B xs c hc).1,
      Pipemode.batchListDrop_eq_filter B xs⟩, ?_, ?_⟩
  · simp [Pipemode.batchList, List.range_succ]
  · simp [Pipemode.batchListDrop, List.range_succ]

/-- Witness for C6's universally quantified part at batch size 4 over 10
examples. -/
theorem claim_C6_batching_witness :
    (Pipemode.batchList 4 (List.range 10)).flatten = List.range 10 :=
  (claim_C6_batching.1 4 (List.range 10) (by decide)).1

/-- Claim C7: a channel delivering zero bytes yields the empty record
sequence as a normal end-of-file termination, not an error — for the
one-shot reader, the chunked reader with no reads, and the chunked
reader with one empty read. -/
theorem claim_C7_empty_channel (maxRec : Nat) :
    PipeSpec.readFrames maxRec [] = .ok [] ∧
    PipeSpec.chunkedRead maxRec [] = .ok [] ∧
    PipeSpec.chunkedRead maxRec [[]] = .ok [] := by
  refine ⟨by simp [PipeSpec.readFrames],
    by simp [PipeSpec.chunkedRead, PipeSpec.runReader], ?_⟩
  simp [PipeSpec.chunkedRead, PipeSpec.runReader, PipeSpec.extractFrames]

/-- Claim C8: however the reader's execution is cut off after any number
of reads (cancellation between record boundaries), the bytes consumed so
far decompose exactly into the complete frames of the records emitted so
far plus the unemitted surplus buffer: a record reaches the decode stage
only after its full framed byte length has been observed, and no partial
record is ever exposed. -/
theorem claim_C8_no_partial_record (maxRec : Nat) (chunks : List (List Nat))
    (k : Nat) (rs : List (List Nat)) (l : List Nat)
    (hb : ∀ b ∈ chunks.flatten, b < 256)
    (h : PipeSpec.runReader maxRec (chunks.take k) [] = .ok (rs, l)) :
    (chunks.take k).flatten = (rs.map PipeSpec.encodeRecord).flatten ++ l := by
  have h0 : PipeSpec.extractFrames maxRec [] = .ok ([], []) := by
    simp [PipeSpec.extractFrames]
  have heq := PipeSpec.runReader_eq_extractFrames maxRec (chunks.take k) [] h0
  rw [List.nil_append] at heq
  rw [heq] at h
  apply PipeSpec.extractFrames_decomposition maxRec ((chunks.take k).flatten) rs l _ h
  intro b hbm
  apply hb
  rcases List.mem_flatten.mp hbm with ⟨c, hc, hbc⟩
  exact List.mem_flatten.mpr ⟨c, List.take_subset k chunks hc, hbc⟩

/-- Witness for C8: cancelling after two reads, with one record emitted
and a partial frame retained in the buffer. -/
theorem claim_C8_no_partial_record_witness :
    (([[1, 0, 0, 0], [65, 2, 0]] : List (List Nat)).take 2).flatten
      = ([[65]].map PipeSpec.encodeRecord).flatten ++ [2, 0] :=
  claim_C8_no_partial_record 100 [[1, 0, 0, 0], [65, 2, 0]] 2 [[65]] [2, 0]
    (by decide)
    (by simp [PipeSpec.runReader, PipeSpec.extractFrames, PipeSpec.decodeLen])

/-- Claim C9: in the `__main__` block, `export_savedmodel` runs exactly
when the current host equals the first entry of the hosts list; on every
other host no export is performed. -/
theorem claim_C9_export_guard (current_host h : String) (t : List String) :
    (Pipemode.exportPerformed current_host (h :: t) = .ok true ↔ current_host = h) ∧
    (Pipemode.exportPerformed current_host (h :: t) = .ok false ↔ current_host ≠ h) := by
  by_cases hch : current_host = h <;> simp [Pipemode.exportPerformed, hch]

/-- Counterexample to Claim C10 as stated: on the argument list
`["--model_dir"]` (declared option with no value), `_parse_args` does not
return successfully — argparse fails with "expected one argument". -/
theorem claim_C10_counterexample :
    Pipemode.parse_known_args ⟨"/opt/ml/model", ["algo-1", "algo-2"], "algo-1"⟩
      ["--model_dir"] = .error (.expectedOneArgument "--model_dir") := rfl

/-- Claim C10 (amended): for every argument list in which no token
invokes the parser's help action (`-h`/`--help`, exact, abbreviated or
with an attached value), no token is an ambiguous abbreviation of the
registered long options (or the bare `--`), and each occurrence of a
declared option without an attached value is immediately followed by a
positional value token, `_parse_args` (given the SageMaker environment
variables) returns successfully, placing exactly the tokens not consumed
by a declared option — the arguments beyond the four declared options,
in order, none of them a declared option — into the unknown-arguments
list rather than failing. -/
theorem claim_C10_unknown_args_tolerated (env : Pipemode.SmEnv)
    (args : List String) (hwf : Pipemode.wellFormedArgs args = true) :
    ∃ ns, Pipemode.parse_known_args env args
        = .ok (ns, Pipemode.unconsumedTokens args) ∧
      ∀ t ∈ Pipemode.unconsumedTokens args,
        t ∈ args ∧ t ∉ Pipemode.declaredOpts := by
  obtain ⟨ns2, hgo⟩ := Pipemode.go_wellFormed args hwf (Pipemode.initialArgs env)
  refine ⟨ns2, ?_, Pipemode.unconsumed_beyond_declared args hwf⟩
  rw [Pipemode.parse_known_args]
  have hfind : args.find? (fun t => Pipemode.classify t == Pipemode.TokenKind.ambiguous)
      = none := by
    rw [List.find?_eq_none]
    intro t ht
    simp only [beq_iff_eq]
    exact Pipemode.wellFormed_no_ambiguous args hwf t ht
  rw [hfind]
  exact hgo

/-- Witness for amended C10: two unknown tokens around a declared option
with its value. -/
theorem claim_C10_unknown_args_tolerated_witness :
    ∃ ns,
      Pipemode.parse_known_args ⟨"/opt/ml/model", ["algo-1"], "algo-1"⟩
          ["--foo", "bar", "--current-host", "algo-2"]
        = .ok (ns, Pipemode.unconsumedTokens
            ["--foo", "bar", "--current-host", "algo-2"]) ∧
      ∀ t ∈ Pipemode.unconsumedTokens ["--foo", "bar", "--current-host", "algo-2"],
        t ∈ ["--foo", "bar", "--current-host", "algo-2"] ∧
        t ∉ Pipemode.declaredOpts :=
  claim_C10_unknown_args_tolerated ⟨"/opt/ml/model", ["algo-1"], "algo-1"⟩
    ["--foo", "bar", "--current-host", "algo-2"] (by decide)
